import Mathlib

/-!
Verification of the event-stream / state-machine header (`StateMachine.h`).

The C++ code is shallowly embedded:

* the byte arena `char* _data` (allocated as `new char[4096]`) becomes a
  `List Nat` of length 4096, each cell holding one byte value;
* `memcpy` into the arena becomes `writeAt`, which overwrites cells in place
  (a write beyond the 4096 cells is dropped by `List.set`, mirroring the fact
  that the arena object itself only has 4096 bytes — in C++ such a write is
  undefined behavior / heap corruption outside the object);
* the header `struct EventHeader { uint32_t id; uint32_t type; size_t size; }`
  is serialized little-endian.  `EVENT_HEADER_SIZE = 12` in the source, which
  matches `sizeof(EventHeader)` on a platform with a 32-bit `size_t`; the
  embedding models that platform, so the size field is 4 bytes;
* `std::vector<uint32_t> _mappings` becomes `List Nat`; an out-of-range
  `operator[]` access (undefined behavior in C++) is modelled by returning
  `none` from the `Option`-valued accessors `get` and `getType`;
* machine integers are `Nat` with explicit `% 2 ^ 32` (or `% 256`) where the
  C++ types truncate.
-/

/-- `const int EVENT_HEADER_SIZE = 12;` -/
def EVENT_HEADER_SIZE : Nat := 12

/-- Arena capacity: the constructor runs `_data = new char[4096];`. -/
def ARENA_CAPACITY : Nat := 4096

/-- Little-endian serialization of a 32-bit value into 4 byte cells. -/
def le32 (x : Nat) : List Nat :=
  [x % 256, x / 256 % 256, x / 2 ^ 16 % 256, x / 2 ^ 24 % 256]

/-- Read back a little-endian 32-bit value from 4 byte cells of the arena. -/
def readLE32 (a : List Nat) (off : Nat) : Nat :=
  a.getD off 0 + 256 * a.getD (off + 1) 0 + 2 ^ 16 * a.getD (off + 2) 0 +
    2 ^ 24 * a.getD (off + 3) 0

/-- `memcpy(arena + off, bs, bs.length)`: overwrite cells `off, off+1, ...`
with the given bytes.  Writes past the end of the list are dropped by
`List.set` (the C++ original would corrupt memory outside the arena there). -/
def writeAt (a : List Nat) (off : Nat) (bs : List Nat) : List Nat :=
  match bs with
  | [] => a
  | b :: rest => writeAt (a.set off b) (off + 1) rest

/-- `memcpy(p, arena + off, n)`: copy `n` cells out of the arena. -/
def readAt (a : List Nat) (off : Nat) (n : Nat) : List Nat :=
  (List.range n).map (fun i => a.getD (off + i) 0)

/-- The serialized `EventHeader` (32-bit platform: `sizeof(EventHeader) = 12`):
32-bit sequence id, 32-bit type, 32-bit size, little-endian, back to back. -/
def headerBytes (id type size : Nat) : List Nat :=
  le32 id ++ le32 type ++ le32 size

/-- The state of `class EventStream`: the fixed arena `_data`, the record
offsets `_mappings` and the write cursor `_index`. -/
structure EventStream where
  data : List Nat
  mappings : List Nat
  index : Nat
  deriving Repr, DecidableEq

namespace EventStream

/-- `EventStream::reset()`: clear `_mappings`, rewind `_index`; the arena
bytes are untouched. -/
def reset (es : EventStream) : EventStream :=
  { es with mappings := [], index := 0 }

/-- The state after `EventStream::EventStream()` (`new char[4096]` then
`reset()`); the fresh arena is modelled as zero-filled. -/
def mk0 : EventStream :=
  { data := List.replicate ARENA_CAPACITY 0, mappings := [], index := 0 }

/-- `EventStream::addHeader(type, size)`: build the header with
`id = _mappings.size()` and `memcpy` its first `EVENT_HEADER_SIZE` bytes to
`_data + _index`. -/
def addHeader (es : EventStream) (type size : Nat) : EventStream :=
  { es with data := writeAt es.data es.index (headerBytes es.mappings.length type size) }

/-- `EventStream::add(type, p, size)`: write the header, `memcpy` the payload
to `_data + _index + EVENT_HEADER_SIZE`, push `_index` onto `_mappings`, and
advance `_index` by `EVENT_HEADER_SIZE + size`.  The payload is the `size`
bytes at `p`.  No capacity check is performed. -/
def add (es : EventStream) (type : Nat) (p : List Nat) : EventStream :=
  let es1 := es.addHeader type p.length
  { es1 with
    data := writeAt es1.data (es1.index + EVENT_HEADER_SIZE) p
    mappings := es1.mappings ++ [es1.index]
    index := es1.index + EVENT_HEADER_SIZE + p.length }

/-- `EventStream::add(type)`: header only, no payload copy, `_index` advances
by `EVENT_HEADER_SIZE`. -/
def add0 (es : EventStream) (type : Nat) : EventStream :=
  let es1 := es.addHeader type 0
  { es1 with
    mappings := es1.mappings ++ [es1.index]
    index := es1.index + EVENT_HEADER_SIZE }

/-- `EventStream::num()`: `_mappings.size()`. -/
def num (es : EventStream) : Nat := es.mappings.length

/-- The type field of the header at `_mappings[i]` (the in-range body of
`EventStream::getType`). -/
def typeAt (es : EventStream) (i : Nat) : Nat :=
  readLE32 es.data (es.mappings.getD i 0 + 4)

/-- The payload bytes copied out by the in-range body of `EventStream::get`:
`header->size` bytes following the header at `_mappings[i]`. -/
def payloadAt (es : EventStream) (i : Nat) : List Nat :=
  readAt es.data (es.mappings.getD i 0 + EVENT_HEADER_SIZE)
    (readLE32 es.data (es.mappings.getD i 0 + 8))

/-- `EventStream::getType(index)`: `_mappings[index]` is an unchecked
`std::vector::operator[]`; an out-of-range access is undefined behavior in
the source and is modelled as `none`. -/
def getType (es : EventStream) (i : Nat) : Option Nat :=
  if i < es.mappings.length then some (es.typeAt i) else none

/-- `EventStream::get(index, p)`: same unchecked `_mappings[index]` access
(`none` models the out-of-range undefined behavior); in range, it copies
`header->size` bytes after the header into `p` and returns `true`. -/
def get (es : EventStream) (i : Nat) : Option (List Nat) :=
  if i < es.mappings.length then some (es.payloadAt i) else none

/-- `EventStream::containsType(type)`: linear scan `for (i = 0; i <
_mappings.size(); ++i) if (getType(i) == type) return true;`. -/
def containsType (es : EventStream) (t : Nat) : Bool :=
  (List.range es.mappings.length).any (fun i => es.typeAt i == t)

end EventStream

/-- Replay a sequence of `add(type, payload)` calls on a stream. -/
def buildFrom (es : EventStream) (E : List (Nat × List Nat)) : EventStream :=
  E.foldl (fun s e => s.add e.1 e.2) es

/-- Total arena bytes consumed by a sequence of records:
`EVENT_HEADER_SIZE + size` each. -/
def bytesNeeded (E : List (Nat × List Nat)) : Nat :=
  (E.map (fun e => EVENT_HEADER_SIZE + e.2.length)).sum

/-- `FNV_Prime = 0x01000193`. -/
def FNV_Prime : Nat := 16777619

/-- `FNV_Seed = 0x811C9DC5`. -/
def FNV_Seed : Nat := 2166136261

/-- `fnv1a(text)`: the name is the list of (non-NUL) bytes of the C string;
the hash is a `uint32_t`, so every step truncates to 32 bits, and each
character is read as an `unsigned char`. -/
def fnv1a (text : List Nat) : Nat :=
  text.foldl (fun h c => (Nat.xor (c % 256) h * FNV_Prime) % 2 ^ 32) FNV_Seed

/-- A `GameState`: the immutable identity hash `_hash` (set from the name by
the constructor), the `_active` flag, derived-class data of type `α`, and the
derived class's virtual `tick` / `activate` / `deactivate` bodies.  The
virtual bodies may change the derived data and the `_active` flag; `tick`
additionally reads and writes the event stream passed to it (its `int`
return value is discarded by the dispatcher). -/
structure GameState (α : Type) where
  hash : Nat
  active : Bool
  data : α
  tickImpl : Float → EventStream → α → α × Bool × EventStream
  activateImpl : α → Bool → α × Bool
  deactivateImpl : α → Bool → α × Bool

namespace GameState

/-- The `GameState(const char* name)` constructor: `_active = false`,
`_hash = fnv1a(name)`. -/
def mkNamed (name : List Nat) (d : α) (t : Float → EventStream → α → α × Bool × EventStream)
    (a da : α → Bool → α × Bool) : GameState α :=
  { hash := fnv1a name, active := false, data := d,
    tickImpl := t, activateImpl := a, deactivateImpl := da }

/-- One virtual `state->tick(dt, &stream)` call: run the derived body on the
current data and flag, producing the updated state and stream. -/
def tick (s : GameState α) (dt : Float) (str : EventStream) : GameState α × EventStream :=
  let r := s.tickImpl dt str s.data
  ({ s with data := r.1, active := r.2.1 }, r.2.2)

/-- One virtual `state->activate()` call. -/
def doActivate (s : GameState α) : GameState α :=
  let r := s.activateImpl s.data s.active
  { s with data := r.1, active := r.2 }

/-- One virtual `state->deactivate()` call. -/
def doDeactivate (s : GameState α) : GameState α :=
  let r := s.deactivateImpl s.data s.active
  { s with data := r.1, active := r.2 }

end GameState

/-- `class StateMachine`: the registered states `_states` (registration
order) and the shared `_stream`. -/
structure StateMachine (α : Type) where
  states : List (GameState α)
  stream : EventStream

/-- The loop body of `StateMachine::tick`: walk the states in registration
order; each state whose `_active` flag is true is ticked, with the event
stream threaded through (the same `&_stream` is passed to every call);
inactive states are skipped. -/
def tickLoop (dt : Float) : List (GameState α) → EventStream → List (GameState α) × EventStream
  | [], str => ([], str)
  | s :: rest, str =>
    if s.active then
      let r := s.tick dt str
      let r2 := tickLoop dt rest r.2
      (r.1 :: r2.1, r2.2)
    else
      let r2 := tickLoop dt rest str
      (s :: r2.1, r2.2)

/-- The stream accumulated by the tick loop over a list of states: the fold
of the active states' tick bodies, in order. -/
def runStream (dt : Float) (l : List (GameState α)) (str : EventStream) : EventStream :=
  l.foldl (fun s g => if g.active then (g.tick dt s).2 else s) str

namespace StateMachine

/-- `StateMachine::tick(float dt)`: `_stream.reset()` first, then the loop
over `_states` ticking exactly the active ones, in registration order. -/
def tick (m : StateMachine α) (dt : Float) : StateMachine α :=
  let r := tickLoop dt m.states m.stream.reset
  { states := r.1, stream := r.2 }

/-- `StateMachine::add(GameState* state)`: `_states.push_back(state)`. -/
def add (m : StateMachine α) (s : GameState α) : StateMachine α :=
  { m with states := m.states ++ [s] }

/-- `StateMachine::find(const char* name)`: hash the name, scan `_states`
in registration order, return the first state whose `_hash` matches, or
null (`none`). -/
def find (m : StateMachine α) (name : List Nat) : Option (GameState α) :=
  m.states.find? (fun s => s.hash == fnv1a name)

/-- Apply `f` through the pointer returned by the first-match scan: the
first state in the list whose hash is `h` is replaced by `f` of it; if no
state matches, the list is unchanged. -/
def updateFirst (h : Nat) (f : GameState α → GameState α) : List (GameState α) → List (GameState α)
  | [] => []
  | s :: rest => if s.hash == h then f s :: rest else s :: updateFirst h f rest

/-- `StateMachine::activate(const char* name)`: `find(name)`; if non-null,
call `state->activate()` through the pointer; otherwise do nothing. -/
def activate (m : StateMachine α) (name : List Nat) : StateMachine α :=
  { m with states := updateFirst (fnv1a name) GameState.doActivate m.states }

/-- `StateMachine::deactivate(const char* name)`: `find(name)`; if non-null,
call `state->deactivate()` through the pointer; otherwise do nothing. -/
def deactivate (m : StateMachine α) (name : List Nat) : StateMachine α :=
  { m with states := updateFirst (fnv1a name) GameState.doDeactivate m.states }

end StateMachine

/-- Record `k` of the intended sequence `E` is laid out correctly in the
stream: its offset is the total size of the records before it, the header
fields at that offset read back as `(k, type, size)`, and the `size` bytes
after the header are the payload. -/
def recOK (es : EventStream) (E : List (Nat × List Nat)) (k : Nat) : Prop :=
  es.mappings.getD k 0 = bytesNeeded (E.take k) ∧
  readLE32 es.data (bytesNeeded (E.take k)) = k ∧
  readLE32 es.data (bytesNeeded (E.take k) + 4) = (E.getD k (0, [])).1 % 2 ^ 32 ∧
  readLE32 es.data (bytesNeeded (E.take k) + 8) = (E.getD k (0, [])).2.length ∧
  readAt es.data (bytesNeeded (E.take k) + EVENT_HEADER_SIZE) (E.getD k (0, [])).2.length =
    (E.getD k (0, [])).2

/-- The stream faithfully stores the record sequence `E` (all within the
arena capacity): arena size, write cursor, offset list and every record's
bytes agree with `E`. -/
def Represents (es : EventStream) (E : List (Nat × List Nat)) : Prop :=
  es.data.length = ARENA_CAPACITY ∧
  bytesNeeded E ≤ ARENA_CAPACITY ∧
  es.index = bytesNeeded E ∧
  es.mappings.length = E.length ∧
  ∀ k, k < E.length → recOK es E k

/-- Fixture: a state that is active and appends one event of type 7 with
payload `[1, 2]` on every tick. -/
def wsActive : GameState Nat :=
  { hash := fnv1a [65], active := true, data := 10,
    tickImpl := fun _ str d => (d + 1, true, str.add 7 [1, 2]),
    activateImpl := fun d _ => (d, true), deactivateImpl := fun d _ => (d, false) }

/-- Fixture: an inactive state. -/
def wsInactive : GameState Nat :=
  { hash := fnv1a [66], active := false, data := 20,
    tickImpl := fun _ str d => (d + 1, false, str),
    activateImpl := fun d _ => (d, true), deactivateImpl := fun d _ => (d, false) }

/-- Fixture: a dispatcher with one active and one inactive state. -/
def mW7 : StateMachine Nat :=
  { states := [wsActive, wsInactive], stream := EventStream.mk0 }

/-- Fixture: a dispatcher with a single registered state. -/
def mW8 : StateMachine Nat :=
  { states := [wsInactive], stream := EventStream.mk0 }

/-- Fixture: first of two states constructed with the same name `"a"`. -/
def wsDup1 : GameState Nat :=
  GameState.mkNamed [97] 1 (fun _ s d => (d, true, s)) (fun d _ => (d, true))
    (fun d _ => (d, false))

/-- Fixture: second of two states constructed with the same name `"a"`. -/
def wsDup2 : GameState Nat :=
  GameState.mkNamed [97] 2 (fun _ s d => (d, true, s)) (fun d _ => (d, true))
    (fun d _ => (d, false))

/-- Fixture: a dispatcher with two states whose identity hashes collide
(same registered name). -/
def mW9 : StateMachine Nat :=
  { states := [wsDup1, wsDup2], stream := EventStream.mk0 }

/-! ## Byte-level lemmas about the arena -/

theorem length_writeAt (bs : List Nat) (a : List Nat) (off : Nat) :
    (writeAt a off bs).length = a.length := by
  induction bs generalizing a off with
  | nil => rfl
  | cons b rest ih => simp [writeAt, ih]

theorem getD_writeAt_lt (bs : List Nat) (a : List Nat) (off i : Nat) (h : i < off) :
    (writeAt a off bs).getD i 0 = a.getD i 0 := by
  induction bs generalizing a off with
  | nil => rfl
  | cons b rest ih =>
    rw [writeAt, ih _ _ (by omega)]
    simp [List.getD_eq_getElem?_getD, List.getElem?_set_ne (by omega : off ≠ i)]

theorem getD_writeAt_ge (bs : List Nat) (a : List Nat) (off i : Nat) (h : off + bs.length ≤ i) :
    (writeAt a off bs).getD i 0 = a.getD i 0 := by
  induction bs generalizing a off with
  | nil => rfl
  | cons b rest ih =>
    simp only [List.length_cons] at h
    rw [writeAt, ih _ _ (by omega)]
    simp [List.getD_eq_getElem?_getD, List.getElem?_set_ne (by omega : off ≠ i)]

theorem getD_writeAt_in (bs : List Nat) (a : List Nat) (off j : Nat)
    (hle : off + bs.length ≤ a.length) (hj : j < bs.length) :
    (writeAt a off bs).getD (off + j) 0 = bs.getD j 0 := by
  induction bs generalizing a off j with
  | nil => simp at hj
  | cons b rest ih =>
    simp only [List.length_cons] at hle hj
    match j with
    | 0 =>
      rw [writeAt, getD_writeAt_lt _ _ _ _ (by omega)]
      simp [List.getD_eq_getElem?_getD, List.getElem?_set_eq_of_lt _ (by omega : off < a.length)]
    | j' + 1 =>
      rw [writeAt]
      have e : off + (j' + 1) = (off + 1) + j' := by omega
      rw [e, ih _ _ _ (by simp; omega) (by omega)]
      simp

theorem getD_writeAt (bs : List Nat) (a : List Nat) (off i : Nat)
    (hle : off + bs.length ≤ a.length) :
    (writeAt a off bs).getD i 0 =
      if off ≤ i ∧ i < off + bs.length then bs.getD (i - off) 0 else a.getD i 0 := by
  by_cases h1 : i < off
  · rw [getD_writeAt_lt _ _ _ _ h1, if_neg (by omega)]
  · by_cases h2 : i < off + bs.length
    · have e : i = off + (i - off) := by omega
      rw [if_pos ⟨by omega, h2⟩]
      conv_lhs => rw [e]
      exact getD_writeAt_in _ _ _ _ hle (by omega)
    · rw [getD_writeAt_ge _ _ _ _ (by omega), if_neg (by omega)]

theorem readLE32_writeAt_header_id (a : List Nat) (off x y z : Nat) (h : off + 12 ≤ a.length) :
    readLE32 (writeAt a off (headerBytes x y z)) off = x % 2 ^ 32 := by
  have hlen : (headerBytes x y z).length = 12 := by simp [headerBytes, le32]
  have hle : off + (headerBytes x y z).length ≤ a.length := by rw [hlen]; omega
  simp only [readLE32, getD_writeAt _ _ _ _ hle, hlen]
  rw [if_pos ⟨by omega, by omega⟩, if_pos ⟨by omega, by omega⟩, if_pos ⟨by omega, by omega⟩,
    if_pos ⟨by omega, by omega⟩]
  have e1 : off - off = 0 := by omega
  have e2 : off + 1 - off = 1 := by omega
  have e3 : off + 2 - off = 2 := by omega
  have e4 : off + 3 - off = 3 := by omega
  rw [e1, e2, e3, e4]
  simp only [headerBytes, le32, List.cons_append, List.nil_append, List.getD_cons_succ,
    List.getD_cons_zero]
  omega

theorem readLE32_writeAt_header_type (a : List Nat) (off x y z : Nat) (h : off + 12 ≤ a.length) :
    readLE32 (writeAt a off (headerBytes x y z)) (off + 4) = y % 2 ^ 32 := by
  have hlen : (headerBytes x y z).length = 12 := by simp [headerBytes, le32]
  have hle : off + (headerBytes x y z).length ≤ a.length := by rw [hlen]; omega
  simp only [readLE32, getD_writeAt _ _ _ _ hle, hlen]
  rw [if_pos ⟨by omega, by omega⟩, if_pos ⟨by omega, by omega⟩, if_pos ⟨by omega, by omega⟩,
    if_pos ⟨by omega, by omega⟩]
  have e1 : off + 4 - off = 4 := by omega
  have e2 : off + 4 + 1 - off = 5 := by omega
  have e3 : off + 4 + 2 - off = 6 := by omega
  have e4 : off + 4 + 3 - off = 7 := by omega
  rw [e1, e2, e3, e4]
  simp only [headerBytes, le32, List.cons_append, List.nil_append, List.getD_cons_succ,
    List.getD_cons_zero]
  omega

theorem readLE32_writeAt_header_size (a : List Nat) (off x y z : Nat) (h : off + 12 ≤ a.length) :
    readLE32 (writeAt a off (headerBytes x y z)) (off + 8) = z % 2 ^ 32 := by
  have hlen : (headerBytes x y z).length = 12 := by simp [headerBytes, le32]
  have hle : off + (headerBytes x y z).length ≤ a.length := by rw [hlen]; omega
  simp only [readLE32, getD_writeAt _ _ _ _ hle, hlen]
  rw [if_pos ⟨by omega, by omega⟩, if_pos ⟨by omega, by omega⟩, if_pos ⟨by omega, by omega⟩,
    if_pos ⟨by omega, by omega⟩]
  have e1 : off + 8 - off = 8 := by omega
  have e2 : off + 8 + 1 - off = 9 := by omega
  have e3 : off + 8 + 2 - off = 10 := by omega
  have e4 : off + 8 + 3 - off = 11 := by omega
  rw [e1, e2, e3, e4]
  simp only [headerBytes, le32, List.cons_append, List.nil_append, List.getD_cons_succ,
    List.getD_cons_zero]
  omega

theorem readLE32_writeAt_of_lt (bs : List Nat) (a : List Nat) (off pos : Nat)
    (h : pos + 4 ≤ off) :
    readLE32 (writeAt a off bs) pos = readLE32 a pos := by
  simp only [readLE32]
  rw [getD_writeAt_lt _ _ _ _ (by omega), getD_writeAt_lt _ _ _ _ (by omega),
    getD_writeAt_lt _ _ _ _ (by omega), getD_writeAt_lt _ _ _ _ (by omega)]

theorem readLE32_writeAt_of_ge (bs : List Nat) (a : List Nat) (off pos : Nat)
    (h : off + bs.length ≤ pos) :
    readLE32 (writeAt a off bs) pos = readLE32 a pos := by
  simp only [readLE32]
  rw [getD_writeAt_ge _ _ _ _ (by omega), getD_writeAt_ge _ _ _ _ (by omega),
    getD_writeAt_ge _ _ _ _ (by omega), getD_writeAt_ge _ _ _ _ (by omega)]

theorem readAt_writeAt_of_lt (bs : List Nat) (a : List Nat) (off pos n : Nat)
    (h : pos + n ≤ off) :
    readAt (writeAt a off bs) pos n = readAt a pos n := by
  simp only [readAt]
  apply List.map_congr_left
  intro i hi
  rw [List.mem_range] at hi
  exact getD_writeAt_lt _ _ _ _ (by omega)

theorem readAt_writeAt_of_ge (bs : List Nat) (a : List Nat) (off pos n : Nat)
    (h : off + bs.length ≤ pos) :
    readAt (writeAt a off bs) pos n = readAt a pos n := by
  simp only [readAt]
  apply List.map_congr_left
  intro i hi
  rw [List.mem_range] at hi
  exact getD_writeAt_ge _ _ _ _ (by omega)

theorem readAt_writeAt_self (bs : List Nat) (a : List Nat) (off : Nat)
    (hle : off + bs.length ≤ a.length) :
    readAt (writeAt a off bs) off bs.length = bs := by
  apply List.ext_getElem
  · simp [readAt]
  · intro i h1 h2
    simp only [readAt, List.getElem_map, List.getElem_range]
    rw [getD_writeAt_in _ _ _ _ hle h2]
    simp [List.getD_eq_getElem?_getD, List.getElem?_eq_getElem h2]

/-! ## List and size bookkeeping -/

theorem getD_append_left {α : Type} (l m : List α) (k : Nat) (d : α) (h : k < l.length) :
    (l ++ m).getD k d = l.getD k d := by
  simp [List.getD_eq_getElem?_getD, List.getElem?_append, h]

theorem getD_append_last {α : Type} (l : List α) (x : α) (d : α) :
    (l ++ [x]).getD l.length d = x := by
  simp [List.getD_eq_getElem?_getD, List.getElem?_append_right]

theorem take_succ_getD {α : Type} (l : List α) (k : Nat) (d : α) (h : k < l.length) :
    l.take (k + 1) = l.take k ++ [l.getD k d] := by
  rw [List.take_succ]
  simp [List.getD_eq_getElem?_getD, List.getElem?_eq_getElem h]

theorem bytesNeeded_append (E F : List (Nat × List Nat)) :
    bytesNeeded (E ++ F) = bytesNeeded E + bytesNeeded F := by
  simp [bytesNeeded]

theorem bytesNeeded_take_le (E : List (Nat × List Nat)) (k : Nat) :
    bytesNeeded (E.take k) ≤ bytesNeeded E := by
  conv_rhs => rw [← List.take_append_drop k E]
  rw [bytesNeeded_append]
  omega

theorem bytesNeeded_take_succ (E : List (Nat × List Nat)) (k : Nat) (h : k < E.length) :
    bytesNeeded (E.take (k + 1)) =
      bytesNeeded (E.take k) + (EVENT_HEADER_SIZE + (E.getD k (0, [])).2.length) := by
  rw [take_succ_getD E k (0, []) h, bytesNeeded_append]
  simp [bytesNeeded]

theorem length_mul_le_bytesNeeded (E : List (Nat × List Nat)) :
    E.length * EVENT_HEADER_SIZE ≤ bytesNeeded E := by
  induction E with
  | nil => simp [bytesNeeded]
  | cons e rest ih =>
    have h : bytesNeeded (e :: rest) = EVENT_HEADER_SIZE + e.2.length + bytesNeeded rest := by
      simp [bytesNeeded]
    simp only [List.length_cons, EVENT_HEADER_SIZE] at h ih ⊢
    omega

/-! ## The layout invariant is established by `reset` and preserved by `add` -/

theorem EventStream.add_data (es : EventStream) (t : Nat) (p : List Nat) :
    (es.add t p).data =
      writeAt (writeAt es.data es.index (headerBytes es.mappings.length t p.length))
        (es.index + EVENT_HEADER_SIZE) p := rfl

theorem EventStream.add_mappings (es : EventStream) (t : Nat) (p : List Nat) :
    (es.add t p).mappings = es.mappings ++ [es.index] := rfl

theorem EventStream.add_index (es : EventStream) (t : Nat) (p : List Nat) :
    (es.add t p).index = es.index + EVENT_HEADER_SIZE + p.length := rfl

theorem represents_reset (es0 : EventStream) (h : es0.data.length = ARENA_CAPACITY) :
    Represents es0.reset [] := by
  unfold Represents
  refine ⟨h, by simp [bytesNeeded, ARENA_CAPACITY], by simp [EventStream.reset, bytesNeeded],
    by simp [EventStream.reset], ?_⟩
  intro k hk
  simp at hk

theorem represents_add (es : EventStream) (E : List (Nat × List Nat)) (t : Nat) (p : List Nat)
    (h : Represents es E)
    (hcap : bytesNeeded E + EVENT_HEADER_SIZE + p.length ≤ ARENA_CAPACITY) :
    Represents (es.add t p) (E ++ [(t, p)]) := by
  obtain ⟨hdl, hcapE, hidx, hmlen, hrec⟩ := h
  have hhs : EVENT_HEADER_SIZE = 12 := rfl
  have hac : ARENA_CAPACITY = 4096 := rfl
  have hba : bytesNeeded (E ++ [(t, p)]) = bytesNeeded E + (EVENT_HEADER_SIZE + p.length) := by
    rw [bytesNeeded_append]; simp [bytesNeeded]
  unfold Represents
  refine ⟨?_, ?_, ?_, ?_, ?_⟩
  · rw [EventStream.add_data, length_writeAt, length_writeAt]; exact hdl
  · omega
  · rw [EventStream.add_index]; omega
  · rw [EventStream.add_mappings]; simp [hmlen]
  · intro k hk
    simp only [List.length_append, List.length_cons, List.length_nil] at hk
    unfold recOK
    by_cases hkE : k < E.length
    · -- an old record: the new writes land at offsets at or past `es.index`
      have h5 := hrec k hkE
      unfold recOK at h5
      obtain ⟨o1, o2, o3, o4, o5⟩ := h5
      have htk : (E ++ [(t, p)]).take k = E.take k :=
        List.take_append_of_le_length (by omega)
      have hgk : (E ++ [(t, p)]).getD k (0, []) = E.getD k (0, []) :=
        getD_append_left _ _ _ _ hkE
      have hend : bytesNeeded (E.take k) + (EVENT_HEADER_SIZE + (E.getD k (0, [])).2.length) ≤
          bytesNeeded E := by
        rw [← bytesNeeded_take_succ E k hkE]
        exact bytesNeeded_take_le E (k + 1)
      refine ⟨?_, ?_, ?_, ?_, ?_⟩
      · rw [EventStream.add_mappings, htk, getD_append_left _ _ _ _ (by omega)]
        exact o1
      · rw [EventStream.add_data, htk, readLE32_writeAt_of_lt _ _ _ _ (by omega),
          readLE32_writeAt_of_lt _ _ _ _ (by omega)]
        exact o2
      · rw [EventStream.add_data, htk, hgk, readLE32_writeAt_of_lt _ _ _ _ (by omega),
          readLE32_writeAt_of_lt _ _ _ _ (by omega)]
        exact o3
      · rw [EventStream.add_data, htk, hgk, readLE32_writeAt_of_lt _ _ _ _ (by omega),
          readLE32_writeAt_of_lt _ _ _ _ (by omega)]
        exact o4
      · rw [EventStream.add_data, htk, hgk, readAt_writeAt_of_lt _ _ _ _ _ (by omega),
          readAt_writeAt_of_lt _ _ _ _ _ (by omega)]
        exact o5
    · -- the new record, at offset `es.index = bytesNeeded E`
      have hk' : k = E.length := by omega
      subst hk'
      have htk : (E ++ [(t, p)]).take E.length = E := by
        rw [List.take_append_of_le_length (by omega), List.take_length]
      have hgk : (E ++ [(t, p)]).getD E.length (0, []) = (t, p) :=
        getD_append_last _ _ _
      have hlen32 : E.length < 2 ^ 32 := by
        have := length_mul_le_bytesNeeded E
        simp only [hhs] at this
        omega
      have hplen32 : p.length < 2 ^ 32 := by omega
      have hdlen : (writeAt es.data es.index (headerBytes es.mappings.length t p.length)).length =
          es.data.length := length_writeAt _ _ _
      refine ⟨?_, ?_, ?_, ?_, ?_⟩
      · rw [EventStream.add_mappings, htk, ← hmlen, getD_append_last]
        exact hidx
      · rw [EventStream.add_data, htk, hidx, hmlen,
          readLE32_writeAt_of_lt _ _ _ _ (by omega),
          readLE32_writeAt_header_id _ _ _ _ _ (by omega)]
        exact Nat.mod_eq_of_lt hlen32
      · rw [EventStream.add_data, htk, hgk, hidx, hmlen,
          readLE32_writeAt_of_lt _ _ _ _ (by omega),
          readLE32_writeAt_header_type _ _ _ _ _ (by omega)]
      · rw [EventStream.add_data, htk, hgk, hidx, hmlen,
          readLE32_writeAt_of_lt _ _ _ _ (by omega),
          readLE32_writeAt_header_size _ _ _ _ _ (by omega)]
        exact Nat.mod_eq_of_lt hplen32
      · rw [EventStream.add_data, htk, hgk, hidx]
        have hself := readAt_writeAt_self p
          (writeAt es.data (bytesNeeded E) (headerBytes es.mappings.length t p.length))
          (bytesNeeded E + EVENT_HEADER_SIZE)
          (by rw [length_writeAt]; omega)
        exact hself

theorem bytesNeeded_singleton (e : Nat × List Nat) :
    bytesNeeded [e] = EVENT_HEADER_SIZE + e.2.length := by
  simp [bytesNeeded]

theorem represents_buildFrom_aux (F : List (Nat × List Nat)) (es : EventStream)
    (E : List (Nat × List Nat)) (h : Represents es E)
    (hcap : bytesNeeded E + bytesNeeded F ≤ ARENA_CAPACITY) :
    Represents (buildFrom es F) (E ++ F) := by
  induction F generalizing es E with
  | nil => simp only [buildFrom, List.foldl_nil, List.append_nil]; exact h
  | cons e rest ih =>
    have hb : bytesNeeded (e :: rest) = EVENT_HEADER_SIZE + e.2.length + bytesNeeded rest := by
      simp [bytesNeeded]
    have step : Represents (es.add e.1 e.2) (E ++ [e]) := by
      have hs := represents_add es E e.1 e.2 h (by omega)
      simpa using hs
    have hres := ih (es.add e.1 e.2) (E ++ [e]) step
      (by rw [bytesNeeded_append, bytesNeeded_singleton]; omega)
    simpa [buildFrom, List.append_assoc] using hres

theorem represents_build (es0 : EventStream) (E : List (Nat × List Nat))
    (h0 : es0.data.length = ARENA_CAPACITY) (hcap : bytesNeeded E ≤ ARENA_CAPACITY) :
    Represents (buildFrom es0.reset E) E := by
  have hres := represents_buildFrom_aux E es0.reset [] (represents_reset es0 h0)
    (by simpa [bytesNeeded] using hcap)
  simpa using hres

theorem represents_get (es : EventStream) (E : List (Nat × List Nat)) (i : Nat)
    (h : Represents es E) (hi : i < E.length) :
    es.getType i = some ((E.getD i (0, [])).1 % 2 ^ 32) ∧
    es.get i = some (E.getD i (0, [])).2 := by
  obtain ⟨hdl, hcapE, hidx, hmlen, hrec⟩ := h
  have h5 := hrec i hi
  unfold recOK at h5
  obtain ⟨o1, o2, o3, o4, o5⟩ := h5
  constructor
  · unfold EventStream.getType EventStream.typeAt
    rw [if_pos (by omega), o1, o3]
  · unfold EventStream.get EventStream.payloadAt
    rw [if_pos (by omega), o1, o4, o5]

/-! ## Claim theorems for the event stream -/

/-- C1: the claim says an `add` whose header plus payload exceeds the
remaining arena capacity fails with an explicit CapacityExceeded error and
leaves `num()` unchanged.  The source performs no capacity check at all:
`add` is total (`void`), the `memcpy` runs past the arena (silent memory
corruption in C++), the offset is still pushed onto `_mappings`, and `num()`
increments.  Evaluated here on a fresh stream and a 5000-byte payload. -/
theorem C1_overflow_unchecked :
    ARENA_CAPACITY - EventStream.mk0.index < EVENT_HEADER_SIZE + 5000 ∧
    (EventStream.mk0.add 1 (List.replicate 5000 7)).num = EventStream.mk0.num + 1 := by
  exact ⟨by decide, rfl⟩

/-- C3: the claim says `get`/`getType` with an index at or beyond the record
count fail with an explicit IndexOutOfRange error.  The source does an
unchecked `_mappings[index]` (`std::vector::operator[]` out of range is
undefined behavior that reads adjacent memory); in the embedding that
undefined access is the `none` branch, reached here on an empty stream at
index 0.  No distinct error value exists in the source (`get` returns `true`
unconditionally on every path that returns). -/
theorem C3_out_of_range_unchecked :
    EventStream.mk0.num = 0 ∧
    EventStream.mk0.get 0 = none ∧
    EventStream.mk0.getType 0 = none :=
  ⟨rfl, rfl, rfl⟩

/-- C2: after any sequence of `add` calls since the last reset that stays
within the arena capacity (the data-model invariant of the spec), every
offset stored in `_mappings` points to a valid record header — a 32-bit
sequence id equal to the record's position, the 32-bit type, and the size
field holding the payload length — immediately followed by exactly
`header.size` payload bytes, all inside the arena. -/
theorem C2_record_layout (es0 : EventStream) (E : List (Nat × List Nat)) (k : Nat)
    (h0 : es0.data.length = ARENA_CAPACITY) (hcap : bytesNeeded E ≤ ARENA_CAPACITY)
    (hk : k < (buildFrom es0.reset E).num) :
    readLE32 (buildFrom es0.reset E).data ((buildFrom es0.reset E).mappings.getD k 0) = k ∧
    readLE32 (buildFrom es0.reset E).data ((buildFrom es0.reset E).mappings.getD k 0 + 4) =
      (E.getD k (0, [])).1 % 2 ^ 32 ∧
    readLE32 (buildFrom es0.reset E).data ((buildFrom es0.reset E).mappings.getD k 0 + 8) =
      (E.getD k (0, [])).2.length ∧
    readAt (buildFrom es0.reset E).data
      ((buildFrom es0.reset E).mappings.getD k 0 + EVENT_HEADER_SIZE)
      (readLE32 (buildFrom es0.reset E).data
        ((buildFrom es0.reset E).mappings.getD k 0 + 8)) =
      (E.getD k (0, [])).2 ∧
    (buildFrom es0.reset E).mappings.getD k 0 + EVENT_HEADER_SIZE +
      (E.getD k (0, [])).2.length ≤ ARENA_CAPACITY := by
  obtain ⟨hdl, hcapE, hidx, hmlen, hrec⟩ := represents_build es0 E h0 hcap
  unfold EventStream.num at hk
  have hkE : k < E.length := by omega
  have h5 := hrec k hkE
  unfold recOK at h5
  obtain ⟨o1, o2, o3, o4, o5⟩ := h5
  rw [o1]
  refine ⟨o2, o3, o4, by rw [o4]; exact o5, ?_⟩
  have hsucc := bytesNeeded_take_succ E k hkE
  have htle := bytesNeeded_take_le E (k + 1)
  omega

/-- C4: a payload `p` added within capacity as the `i`-th record via
`add(type, p, size)` is returned byte-for-byte (and with its exact length)
by a subsequent `get(i)` with no intervening reset. -/
theorem C4_roundtrip (es0 : EventStream) (E : List (Nat × List Nat)) (t : Nat) (p : List Nat)
    (h0 : es0.data.length = ARENA_CAPACITY)
    (hcap : bytesNeeded E + EVENT_HEADER_SIZE + p.length ≤ ARENA_CAPACITY) :
    (buildFrom es0.reset (E ++ [(t, p)])).get E.length = some p := by
  have hp2 : ((t, p) : Nat × List Nat).2.length = p.length := rfl
  have hrep := represents_build es0 (E ++ [(t, p)]) h0
    (by rw [bytesNeeded_append, bytesNeeded_singleton]; omega)
  have hlt : E.length < (E ++ [(t, p)]).length := by simp
  have hget := (represents_get _ _ E.length hrep hlt).2
  rw [getD_append_last] at hget
  exact hget

/-- C5: for every sequence of `add` calls within capacity after a reset,
`num()` equals the number of `add` calls since that reset, and `getType(i)`
returns the type argument passed to the `i`-th `add` call, in order. -/
theorem C5_count_and_types (es0 : EventStream) (E : List (Nat × List Nat))
    (h0 : es0.data.length = ARENA_CAPACITY) (hcap : bytesNeeded E ≤ ARENA_CAPACITY)
    (htypes : ∀ e ∈ E, e.1 < 2 ^ 32) :
    (buildFrom es0.reset E).num = E.length ∧
    ∀ i, i < E.length → (buildFrom es0.reset E).getType i = some (E.getD i (0, [])).1 := by
  have hrep := represents_build es0 E h0 hcap
  obtain ⟨hdl, hcapE, hidx, hmlen, hrec⟩ := hrep
  refine ⟨hmlen, ?_⟩
  intro i hi
  have htype := (represents_get _ _ i ⟨hdl, hcapE, hidx, hmlen, hrec⟩ hi).1
  have hmem : E.getD i (0, []) ∈ E := by
    rw [List.getD_eq_getElem?_getD, List.getElem?_eq_getElem hi]
    simp only [Option.getD_some]
    exact List.getElem_mem hi
  rw [htype, Nat.mod_eq_of_lt (htypes _ hmem)]

/-- C6: `containsType(t)` returns true exactly when some index `i` below
`num()` has `getType(i) = t`; in particular it is false on an empty buffer. -/
theorem C6_containsType_iff (es : EventStream) (t : Nat) :
    (es.containsType t = true ↔ ∃ i, i < es.num ∧ es.getType i = some t) ∧
    (es.num = 0 → es.containsType t = false) := by
  constructor
  · unfold EventStream.containsType EventStream.getType EventStream.num
    rw [List.any_eq_true]
    constructor
    · rintro ⟨i, hi, hit⟩
      rw [List.mem_range] at hi
      rw [beq_iff_eq] at hit
      exact ⟨i, hi, by rw [if_pos hi, hit]⟩
    · rintro ⟨i, hi, hit⟩
      rw [if_pos hi] at hit
      refine ⟨i, List.mem_range.mpr hi, ?_⟩
      rw [beq_iff_eq]
      exact Option.some.inj hit
  · intro h
    unfold EventStream.num at h
    unfold EventStream.containsType
    rw [h]
    rfl

/-- C10: a successful `add` within capacity leaves every previously stored
record unchanged: both `getType(i)` and `get(i)` return the same values
after the `add` as before it, for every index `i` valid before. -/
theorem C10_add_preserves_records (es0 : EventStream) (E : List (Nat × List Nat))
    (t : Nat) (p : List Nat) (i : Nat) (h0 : es0.data.length = ARENA_CAPACITY)
    (hcap : bytesNeeded E + EVENT_HEADER_SIZE + p.length ≤ ARENA_CAPACITY)
    (hi : i < E.length) :
    (buildFrom es0.reset (E ++ [(t, p)])).getType i = (buildFrom es0.reset E).getType i ∧
    (buildFrom es0.reset (E ++ [(t, p)])).get i = (buildFrom es0.reset E).get i := by
  have hp2 : ((t, p) : Nat × List Nat).2.length = p.length := rfl
  have hrep1 := represents_build es0 E h0 (by omega)
  have hrep2 := represents_build es0 (E ++ [(t, p)]) h0
    (by rw [bytesNeeded_append, bytesNeeded_singleton]; omega)
  have hlt : i < (E ++ [(t, p)]).length := by simp; omega
  have g1 := represents_get _ _ i hrep1 hi
  have g2 := represents_get _ _ i hrep2 hlt
  rw [getD_append_left _ _ _ _ hi] at g2
  exact ⟨by rw [g1.1, g2.1], by rw [g1.2, g2.2]⟩

/-! ## The dispatcher loop -/

theorem tickLoop_length {α : Type} (dt : Float) (l : List (GameState α)) (str : EventStream) :
    (tickLoop dt l str).1.length = l.length := by
  induction l generalizing str with
  | nil => rfl
  | cons s rest ih =>
    by_cases h : s.active <;> simp [tickLoop, h, ih]

theorem tickLoop_stream {α : Type} (dt : Float) (l : List (GameState α)) (str : EventStream) :
    (tickLoop dt l str).2 = runStream dt l str := by
  induction l generalizing str with
  | nil => rfl
  | cons s rest ih =>
    by_cases h : s.active <;> simp [tickLoop, runStream, h, ih, List.foldl_cons]

theorem tickLoop_getD {α : Type} (dt : Float) (l : List (GameState α)) (str : EventStream)
    (d : GameState α) (i : Nat) (hi : i < l.length) :
    (tickLoop dt l str).1.getD i d =
      if (l.getD i d).active then ((l.getD i d).tick dt (runStream dt (l.take i) str)).1
      else l.getD i d := by
  induction l generalizing str i with
  | nil => simp at hi
  | cons s rest ih =>
    match i with
    | 0 =>
      by_cases h : s.active <;> simp [tickLoop, h, runStream]
    | i' + 1 =>
      simp only [List.length_cons] at hi
      have ha : (tickLoop dt (s :: rest) str).1.getD (i' + 1) d =
          (tickLoop dt rest (if s.active then (s.tick dt str).2 else str)).1.getD i' d := by
        by_cases h : s.active <;> simp [tickLoop, h]
      have hrs : runStream dt ((s :: rest).take (i' + 1)) str =
          runStream dt (rest.take i') (if s.active then (s.tick dt str).2 else str) := by
        by_cases h : s.active <;> simp [runStream, h, List.take_succ_cons]
      rw [ha, ih _ _ (by omega), hrs]
      simp only [List.getD_cons_succ]

/-- C7: `StateMachine::tick(dt)` first resets the shared event stream and
then invokes the virtual `tick(dt, &_stream)` on exactly the registered
states whose active flag is true, in registration order, threading the one
shared stream through all of them (`runStream` is that fold, starting from
the reset stream); a state whose active flag is false receives no tick call
and is left untouched. -/
theorem C7_tick_only_active (m : StateMachine α) (dt : Float) (d : GameState α) (i : Nat)
    (hi : i < m.states.length) :
    (m.tick dt).stream = runStream dt m.states m.stream.reset ∧
    (m.tick dt).states.length = m.states.length ∧
    ((m.states.getD i d).active = false → (m.tick dt).states.getD i d = m.states.getD i d) ∧
    ((m.states.getD i d).active = true →
      (m.tick dt).states.getD i d =
        ((m.states.getD i d).tick dt (runStream dt (m.states.take i) m.stream.reset)).1) := by
  refine ⟨tickLoop_stream dt m.states m.stream.reset, tickLoop_length dt m.states m.stream.reset,
    ?_, ?_⟩
  · intro h
    have hg := tickLoop_getD dt m.states m.stream.reset d i hi
    rw [h] at hg
    simpa using hg
  · intro h
    have hg := tickLoop_getD dt m.states m.stream.reset d i hi
    rw [h] at hg
    simpa using hg

theorem updateFirst_no_match {α : Type} (hsh : Nat) (f : GameState α → GameState α)
    (l : List (GameState α)) (hn : ∀ s ∈ l, s.hash ≠ hsh) :
    StateMachine.updateFirst hsh f l = l := by
  induction l with
  | nil => rfl
  | cons s rest ih =>
    have h1 : (s.hash == hsh) = false := by
      simp [hn s (List.mem_cons_self s rest)]
    rw [StateMachine.updateFirst, h1]
    simp only [Bool.false_eq_true, if_false]
    rw [ih (fun x hx => hn x (List.mem_cons_of_mem _ hx))]

/-- C8: `activate(name)` and `deactivate(name)` with a name whose hash
matches no registered state are no-ops: `find` returns null, no virtual
call is made, and the machine — state list, every active flag, and the
event stream — is unchanged. -/
theorem C8_unknown_name_noop (m : StateMachine α) (name : List Nat)
    (h : ∀ s ∈ m.states, s.hash ≠ fnv1a name) :
    m.find name = none ∧ m.activate name = m ∧ m.deactivate name = m := by
  refine ⟨?_, ?_, ?_⟩
  · unfold StateMachine.find
    rw [List.find?_eq_none]
    intro s hs
    simp [h s hs]
  · unfold StateMachine.activate
    rw [updateFirst_no_match _ _ _ h]
  · unfold StateMachine.deactivate
    rw [updateFirst_no_match _ _ _ h]

theorem updateFirst_first_match {α : Type} (hsh : Nat) (f : GameState α → GameState α)
    (l : List (GameState α)) (d : GameState α) (i : Nat) (hi : i < l.length)
    (hmatch : (l.getD i d).hash = hsh)
    (hfirst : ∀ k, k < i → (l.getD k d).hash ≠ hsh) :
    StateMachine.updateFirst hsh f l = l.take i ++ f (l.getD i d) :: l.drop (i + 1) := by
  induction l generalizing i with
  | nil => simp at hi
  | cons s rest ih =>
    match i with
    | 0 =>
      simp only [List.getD_cons_zero] at hmatch
      rw [StateMachine.updateFirst, if_pos (by simp [hmatch])]
      simp
    | i' + 1 =>
      simp only [List.length_cons] at hi
      simp only [List.getD_cons_succ] at hmatch
      have h0 : s.hash ≠ hsh := by
        have hf := hfirst 0 (by omega)
        simpa using hf
      rw [StateMachine.updateFirst, if_neg (by simp [h0])]
      rw [ih _ (by omega) hmatch (fun k hk => by
        have hf := hfirst (k + 1) (by omega)
        simpa using hf)]
      simp

theorem find?_first_match {α : Type} (hsh : Nat) (l : List (GameState α)) (d : GameState α)
    (i : Nat) (hi : i < l.length) (hmatch : (l.getD i d).hash = hsh)
    (hfirst : ∀ k, k < i → (l.getD k d).hash ≠ hsh) :
    l.find? (fun s => s.hash == hsh) = some (l.getD i d) := by
  induction l generalizing i with
  | nil => simp at hi
  | cons s rest ih =>
    match i with
    | 0 =>
      simp only [List.getD_cons_zero] at hmatch ⊢
      rw [List.find?_cons_of_pos _ (by simp [hmatch])]
    | i' + 1 =>
      simp only [List.length_cons] at hi
      simp only [List.getD_cons_succ] at hmatch ⊢
      have h0 : s.hash ≠ hsh := by
        have hf := hfirst 0 (by omega)
        simpa using hf
      rw [List.find?_cons_of_neg _ (by simp [h0])]
      exact ih _ (by omega) hmatch (fun k hk => by
        have hf := hfirst (k + 1) (by omega)
        simpa using hf)

/-- C9: when two registered states share the same identity hash, lookup by a
name with that hash — the scan used by `find`, `activate` and `deactivate` —
resolves to the state registered first: `find` returns it, and `activate` /
`deactivate` apply the virtual call to it alone, leaving every other state
(including the later duplicate) untouched. -/
theorem C9_first_registration_wins (m : StateMachine α) (name : List Nat) (d : GameState α)
    (i j : Nat) (hj : j < m.states.length) (hij : i < j)
    (hihash : (m.states.getD i d).hash = fnv1a name)
    (_hjhash : (m.states.getD j d).hash = fnv1a name)
    (hfirst : ∀ k, k < i → (m.states.getD k d).hash ≠ fnv1a name) :
    m.find name = some (m.states.getD i d) ∧
    m.activate name = { m with states := m.states.take i ++
      (m.states.getD i d).doActivate :: m.states.drop (i + 1) } ∧
    m.deactivate name = { m with states := m.states.take i ++
      (m.states.getD i d).doDeactivate :: m.states.drop (i + 1) } := by
  have hi : i < m.states.length := by omega
  refine ⟨?_, ?_, ?_⟩
  · unfold StateMachine.find
    exact find?_first_match _ _ _ i hi hihash hfirst
  · unfold StateMachine.activate
    rw [updateFirst_first_match _ _ _ d i hi hihash hfirst]
  · unfold StateMachine.deactivate
    rw [updateFirst_first_match _ _ _ d i hi hihash hfirst]

/-! ## Witnesses: the claim theorems applied at concrete inputs -/

theorem mk0_data_length : EventStream.mk0.data.length = ARENA_CAPACITY := by
  simp [EventStream.mk0]

/-- Witness for C2: the single-record stream `add(7, [1, 2])` satisfies the
layout invariant at record 0 (shown here: the sequence id reads back as 0). -/
theorem C2_record_layout_witness :
    EventStream.mk0.data.length = ARENA_CAPACITY ∧
    bytesNeeded [(7, [1, 2])] ≤ ARENA_CAPACITY ∧
    0 < (buildFrom EventStream.mk0.reset [(7, [1, 2])]).num ∧
    readLE32 (buildFrom EventStream.mk0.reset [(7, [1, 2])]).data
      ((buildFrom EventStream.mk0.reset [(7, [1, 2])]).mappings.getD 0 0) = 0 :=
  ⟨mk0_data_length, by decide, by decide,
    (C2_record_layout EventStream.mk0 [(7, [1, 2])] 0 mk0_data_length (by decide)
      (by decide)).1⟩

/-- Witness for C4: the payload `[1, 2]` added as record 0 reads back
byte-for-byte. -/
theorem C4_roundtrip_witness :
    bytesNeeded [] + EVENT_HEADER_SIZE + 2 ≤ ARENA_CAPACITY ∧
    (buildFrom EventStream.mk0.reset ([] ++ [(7, [1, 2])])).get 0 = some [1, 2] :=
  ⟨by decide, C4_roundtrip EventStream.mk0 [] 7 [1, 2] mk0_data_length (by decide)⟩

/-- Witness for C5: after two adds, `num()` is 2 and the second record's
type reads back as 9. -/
theorem C5_count_and_types_witness :
    (buildFrom EventStream.mk0.reset [(7, [1, 2]), (9, [])]).num = 2 ∧
    (buildFrom EventStream.mk0.reset [(7, [1, 2]), (9, [])]).getType 1 = some 9 :=
  ⟨(C5_count_and_types EventStream.mk0 [(7, [1, 2]), (9, [])] mk0_data_length (by decide)
      (by decide)).1,
    (C5_count_and_types EventStream.mk0 [(7, [1, 2]), (9, [])] mk0_data_length (by decide)
      (by decide)).2 1 (by decide)⟩

/-- Witness for C6: on the empty buffer `containsType` is false. -/
theorem C6_containsType_iff_witness :
    EventStream.mk0.containsType 5 = false :=
  (C6_containsType_iff EventStream.mk0 5).2 rfl

/-- Witness for C7: in a machine with an active state followed by an
inactive one, the inactive state is untouched by `tick` and the stream is
the fold of the active states over the reset stream. -/
theorem C7_tick_only_active_witness :
    1 < mW7.states.length ∧
    (mW7.tick 0.25).states.getD 1 wsInactive = wsInactive ∧
    (mW7.tick 0.25).stream = runStream 0.25 mW7.states mW7.stream.reset :=
  ⟨by decide, (C7_tick_only_active mW7 0.25 wsInactive 1 (by decide)).2.2.1 rfl,
    (C7_tick_only_active mW7 0.25 wsInactive 1 (by decide)).1⟩

/-- Witness for C8: activating or deactivating the unknown name `"a"` in a
machine whose only state is named `"B"` changes nothing. -/
theorem C8_unknown_name_noop_witness :
    mW8.find [97] = none ∧ mW8.activate [97] = mW8 ∧ mW8.deactivate [97] = mW8 := by
  have h : ∀ s ∈ mW8.states, s.hash ≠ fnv1a [97] := by
    intro s hs
    simp only [mW8, List.mem_singleton] at hs
    subst hs
    decide
  exact C8_unknown_name_noop mW8 [97] h

/-- Witness for C9: with two states registered under the same name `"a"`,
`find` returns the first and `activate` touches only the first. -/
theorem C9_first_registration_wins_witness :
    mW9.find [97] = some wsDup1 ∧
    mW9.activate [97] = { mW9 with states := [wsDup1.doActivate, wsDup2] } := by
  have hc := C9_first_registration_wins mW9 [97] wsDup1 0 1 (by decide) (by decide)
    rfl rfl (fun k hk => absurd hk (Nat.not_lt_zero k))
  exact ⟨hc.1, hc.2.1⟩

/-- Witness for C10: adding `(9, [5])` after `(7, [1, 2])` leaves record 0's
type and payload unchanged. -/
theorem C10_add_preserves_records_witness :
    (buildFrom EventStream.mk0.reset ([(7, [1, 2])] ++ [(9, [5])])).getType 0 =
      (buildFrom EventStream.mk0.reset [(7, [1, 2])]).getType 0 ∧
    (buildFrom EventStream.mk0.reset ([(7, [1, 2])] ++ [(9, [5])])).get 0 =
      (buildFrom EventStream.mk0.reset [(7, [1, 2])]).get 0 :=
  C10_add_preserves_records EventStream.mk0 [(7, [1, 2])] 9 [5] 0 mk0_data_length (by decide)
    (by decide)
